import Mathlib

/-
Shallow embedding of jkawamoto/sd-model-updater.

The embedding covers:
  * the data model used by the tool (the fields of go-civitai's
    models.ModelVersion / models.Model / models.File that the repository
    reads),
  * the download client (client.go: Download, writeFile),
  * the update resolver (update.go: findUpdate, findUpdatesFromDir,
    Update.run) and the per-target loop of main.go (run).

External collaborators are modelled as explicit parameters:
  * the remote catalog (go-civitai client) is a pair of lookup functions,
  * the network (ctxhttp.Get) is a function from URL to response,
  * BLAKE3 hex digests are an arbitrary function `hashHex` from bytes to
    strings (the code only ever compares digests for equality),
  * the interactive prompt (survey) is a pair of answer oracles,
  * the filesystem is an explicit record of directories and files.
Go maps are modelled as association lists where insertion replaces the
previous binding of the key (`mapInsert`); map iteration order, which Go
leaves unspecified, is fixed to insertion order.
-/

namespace SD

/-- Byte strings (contents of files and of download response bodies). -/
abbrev Bytes := List UInt8

/-- The fields of go-civitai models.File read by this repository:
Format, Primary, DownloadURL and Hashes.BLAKE3. -/
structure FileRecord where
  format : String
  primary : Bool
  downloadURL : String
  blake3 : String
  deriving DecidableEq, Repr

/-- The fields of go-civitai models.ModelVersion read by this repository:
ID (the version's own identifier), ModelID (the identifier of the model
the version belongs to — go-civitai distinguishes the two: the earlier
snapshot of this code passes cur.ModelID to GetModel, and update_test.go
gives the versions of one list distinct IDs), Name, PublishedAt and
Files.  PublishedAt (strfmt.DateTime) is modelled as an integer
timestamp; time.Time.After / Before are the strict orderings on it. -/
structure ModelVersion where
  id : Int
  modelID : Int
  name : String
  publishedAt : Int
  files : List FileRecord
  deriving DecidableEq, Repr

/-- The fields of go-civitai models.Model read by this repository:
Name and ModelVersions. -/
structure Model where
  name : String
  modelVersions : List ModelVersion
  deriving DecidableEq, Repr

/-- Errors of the catalog API as distinguished by the repository: the code
only inspects whether an error carries HTTP status code 404 (NotFound);
everything else is opaque. -/
inductive ApiError
  | notFound
  | other (s : String)
  deriving DecidableEq, Repr

/-- The remote catalog (Client.GetModelVersion / Client.GetModel from
client.go, thin wrappers over the go-civitai client service).  byId is
GetModel, whose parameter is a model identifier (WithModelID). -/
structure Catalog where
  byHash : String → Except ApiError ModelVersion
  byId : Int → Except ApiError Model

/-- Update (update.go): information about new versions for a model.
Candidates is a Go map from version name to version, modelled as an
association list with `mapInsert` semantics. -/
structure Update where
  modelName : String
  currentVersion : String
  candidates : List (String × ModelVersion)
  deriving DecidableEq, Repr

/-- Go map assignment `m[k] = v`: the previous binding of `k`, if any, is
replaced.  (Order of the remaining bindings is irrelevant to the code,
which only reads maps by key or iterates in unspecified order.) -/
def mapInsert (m : List (String × ModelVersion)) (k : String) (v : ModelVersion) :
    List (String × ModelVersion) :=
  (m.filter fun p => p.1 != k) ++ [(k, v)]

/-- One step of the candidate-collection loops in findUpdate and
findUpdatesFromDir (update.go): `if v.PublishedAt.After(cur.PublishedAt)
\x7b candidates[v.Name] = v \x7d`. -/
def candStep (cur : ModelVersion) (acc : List (String × ModelVersion))
    (v : ModelVersion) : List (String × ModelVersion) :=
  if cur.publishedAt < v.publishedAt then mapInsert acc v.name v else acc

/-- The candidate map built from the version list `vs` relative to the
current version `cur`. -/
def candidatesOf (cur : ModelVersion) (vs : List ModelVersion) :
    List (String × ModelVersion) :=
  vs.foldl (candStep cur) []

/- ===================== client.go : Download ===================== -/

/-- Errors produced by Download / writeFile (client.go), mirroring the
sentinel errors ErrFileNotFound, ErrGetFailure, ErrNoFilename,
ErrFileHashNotMatch, the os.ErrExist wrap of writeFile, a transport error
from ctxhttp.Get, and a read/copy error in io.Copy. -/
inductive DlErr
  | fileNotFound
  | transport (s : String)
  | getFailure (status : Nat)
  | noFilename
  | alreadyExists (path : String)
  | copyFailed
  | hashMismatch
  deriving DecidableEq, Repr

instance instDecEqExcept {ε α : Type} [DecidableEq ε] [DecidableEq α] :
    DecidableEq (Except ε α) := fun a b =>
  match a, b with
  | .ok x, .ok y =>
    if h : x = y then .isTrue (by simp [h]) else .isFalse (by simp [h])
  | .ok _, .error _ => .isFalse (by simp)
  | .error _, .ok _ => .isFalse (by simp)
  | .error x, .error y =>
    if h : x = y then .isTrue (by simp [h]) else .isFalse (by simp [h])

/-- An HTTP response as observed by Download: the status code, the outcome
of mime.ParseMediaType on the Content-Disposition header (error, or the
parameter list), the body bytes actually delivered, and whether reading the
body failed after delivering those bytes (mid-stream interruption:
cancellation or transport error). -/
structure Resp where
  status : Nat
  dispParams : Except String (List (String × String))
  body : Bytes
  bodyTruncated : Bool
  deriving DecidableEq, Repr

/-- Filesystem state: existing directories and existing files with their
contents.  Paths are taken verbatim (assumed clean). -/
structure Fs where
  dirs : List String
  files : List (String × Bytes)
  deriving DecidableEq, Repr

/-- os.Stat succeeding: the path exists, as a directory or as a file. -/
def statExists (fs : Fs) (p : String) : Bool :=
  fs.dirs.contains p || (fs.files.lookup p).isSome

/-- os.Create + writing `data`: records the file in the filesystem. -/
def setFile (fs : Fs) (p : String) (data : Bytes) : Fs :=
  { fs with files := fs.files ++ [(p, data)] }

/-- os.Remove of a file. -/
def removeFile (fs : Fs) (p : String) : Fs :=
  { fs with files := fs.files.filter fun q => q.1 != p }

/-- filepath.Join(dir, name) for clean `dir`: Join(dir, "") = Clean(dir). -/
def joinPath (dir name : String) : String :=
  if name = "" then dir else dir ++ "/" ++ name

/-- writeFile (client.go): fails with os.ErrExist when os.Stat succeeds on
`name`; otherwise creates the file and copies the stream into it.  When the
stream is interrupted mid-copy (`truncated`), io.Copy returns the read
error — and the partially written file stays on disk. -/
def writeFile (fs : Fs) (name : String) (data : Bytes) (truncated : Bool) :
    Except DlErr Unit × Fs :=
  if statExists fs name then (.error (.alreadyExists name), fs)
  else if truncated then (.error .copyFailed, setFile fs name data)
  else (.ok (), setFile fs name data)

/-- ASCII lowercasing of a character (A-Z to a-z). -/
def lowerChar (c : Char) : Char :=
  if 65 ≤ c.toNat ∧ c.toNat ≤ 90 then Char.ofNat (c.toNat + 32) else c

/-- strings.ToLower as used by the code: the strings it is applied to
(format tags and hex digests) are ASCII, so ASCII lowering models it. -/
def strToLower (s : String) : String := String.mk (s.data.map lowerChar)

/-- One iteration of Download's file-selection loop (client.go):
`if strings.ToLower(f.Format) == cli.PreferredFormat \x7b file = f \x7d;
if f.Primary && file == nil \x7b file = f \x7d`. -/
def selStep (preferred : String) (acc : Option FileRecord) (f : FileRecord) :
    Option FileRecord :=
  let a := if strToLower f.format = preferred then some f else acc
  if f.primary && a.isNone then some f else a

/-- Download's file selection over the version's file list. -/
def selectFile (preferred : String) (files : List FileRecord) : Option FileRecord :=
  files.foldl (selStep preferred) none

/-- Download (client.go): selects a file, fetches it, requires status 200
and a Content-Disposition filename parameter (absent parameter yields the
empty name, Go's map zero value), writes the body to dir/name while
accumulating its digest, and finally compares the digest with the lowered
declared BLAKE3 digest, removing the file on mismatch.  Returns the
outcome, the resulting filesystem, and the list of URLs fetched. -/
def Download (preferred : String) (hashHex : Bytes → String)
    (net : String → Except String Resp) (ver : ModelVersion) (dir : String)
    (fs : Fs) : Except DlErr Unit × Fs × List String :=
  match selectFile preferred ver.files with
  | none => (.error .fileNotFound, fs, [])
  | some file =>
    match net file.downloadURL with
    | .error e => (.error (.transport e), fs, [file.downloadURL])
    | .ok res =>
      if res.status ≠ 200 then (.error (.getFailure res.status), fs, [file.downloadURL])
      else
        match res.dispParams with
        | .error _ => (.error .noFilename, fs, [file.downloadURL])
        | .ok params =>
          let name := (params.lookup "filename").getD ""
          let dest := joinPath dir name
          match writeFile fs dest res.body res.bodyTruncated with
          | (.error e, fs1) => (.error e, fs1, [file.downloadURL])
          | (.ok _, fs1) =>
            if hashHex res.body = strToLower file.blake3 then (.ok (), fs1, [file.downloadURL])
            else (.error .hashMismatch, removeFile fs1 dest, [file.downloadURL])

/- ============ update.go / main.go : update resolution ============ -/

/-- Errors of findUpdate (update.go): an I/O error from fileHash, or a
catalog API error (distinguishing the 404 case, which the callers inspect
through the Code() interface). -/
inductive UErr
  | ioErr (s : String)
  | apiNotFound
  | apiOther (s : String)
  deriving DecidableEq, Repr

/-- Injection of catalog API errors into findUpdate errors. -/
def liftApi : ApiError → UErr
  | .notFound => .apiNotFound
  | .other s => .apiOther s

/-- findUpdate (update.go): hashes the named file, resolves the hash to
the current version, calls GetModel with cur.ID — the version's own
identifier, not cur.ModelID (the earlier snapshot of this function passed
cur.ModelID here) — and collects as candidates every version published
strictly after the current one, keyed by version name.  File hashing is an
oracle from file name to digest (fileHash streams the file through BLAKE3;
its I/O is outside the embedding). -/
def findUpdate (hashOf : String → Except String String) (cat : Catalog)
    (name : String) : Except UErr Update :=
  match hashOf name with
  | .error e => .error (.ioErr e)
  | .ok h =>
    match cat.byHash h with
    | .error e => .error (liftApi e)
    | .ok cur =>
      match cat.byId cur.id with
      | .error e => .error (liftApi e)
      | .ok m =>
        .ok { modelName := m.name
              currentVersion := cur.name
              candidates := candidatesOf cur m.modelVersions }

/-- filepath.Ext: the suffix beginning at the final dot in the final
slash-separated element of the path; empty when that element has no dot.
Computed over the reversed character list: the final element is everything
up to the first '/' from the right. -/
def pathExt (s : String) : String :=
  let comp := s.data.reverse.takeWhile fun c => c != '/'
  if comp.contains '.' then
    "." ++ String.mk ((comp.takeWhile fun c => c != '.').reverse)
  else ""

/-- modelFileExtensions (main.go). -/
def modelFileExtensions : List String := [".safetensors", ".ckpt", ".pt"]

/-- isModelFile (main.go): the path's extension is in the allow-list. -/
def isModelFile (name : String) : Bool :=
  modelFileExtensions.contains (pathExt name)

/-- A file encountered by filepath.WalkDir, together with its fileHash
digest.  (fileHash failures abort the whole walk in the source; no claim
exercises that path, so entries carry successful digests.) -/
structure DirEntry where
  path : String
  hash : String
  deriving DecidableEq, Repr

/-- The grouping map `ms : map[int64]modelVersionList` of
findUpdatesFromDir, as an association list in key-insertion order. -/
abbrev Groups := List (Int × List ModelVersion)

/-- `ms[v.ID] = append(ms[v.ID], v)`: appends `v` to the group keyed by
v.ID — the version's own identifier, not v.ModelID. -/
def groupAdd (ms : Groups) (v : ModelVersion) : Groups :=
  match ms with
  | [] => [(v.id, [v])]
  | (i, vs) :: rest =>
    if i = v.id then (i, vs ++ [v]) :: rest else (i, vs) :: groupAdd rest v

/-- The notice printed when the catalog has no record for a digest. -/
def notFoundNotice : String := "Model information is not found"

/-- The directory walk of findUpdatesFromDir (update.go): skips paths that
are not model files, resolves each model file's digest, skips files the
catalog does not know (printing a notice) and aborts on any other error;
resolved versions are grouped by their ID. -/
def scanDirAux (cat : Catalog) (ms : Groups) (out : List String) :
    List DirEntry → Except ApiError (Groups × List String)
  | [] => .ok (ms, out)
  | e :: rest =>
    if isModelFile e.path then
      match cat.byHash e.hash with
      | .ok v => scanDirAux cat (groupAdd ms v) out rest
      | .error .notFound => scanDirAux cat ms (out ++ [notFoundNotice]) rest
      | .error (.other s) => .error (.other s)
    else scanDirAux cat ms out rest

/-- The walk phase of findUpdatesFromDir, started from empty state. -/
def scanDir (cat : Catalog) (entries : List DirEntry) :
    Except ApiError (Groups × List String) :=
  scanDirAux cat [] [] entries

/-- The versions the walk successfully resolves, in walk order. -/
def resolvedOf (cat : Catalog) : List DirEntry → List ModelVersion
  | [] => []
  | e :: rest =>
    if isModelFile e.path then
      match cat.byHash e.hash with
      | .ok v => v :: resolvedOf cat rest
      | .error _ => resolvedOf cat rest
    else resolvedOf cat rest

/-- Insertion into a list kept in descending publishedAt order. -/
def insertDesc (v : ModelVersion) : List ModelVersion → List ModelVersion
  | [] => [v]
  | w :: ws =>
    if w.publishedAt < v.publishedAt then v :: w :: ws else w :: insertDesc v ws

/-- `sort.Sort(sort.Reverse(modelVersionList(l)))`: sorts descending by
publishedAt (sort.Sort is unstable, so the order among equal timestamps is
unspecified; this embedding fixes one admissible order). -/
def sortDesc (l : List ModelVersion) : List ModelVersion :=
  l.foldr insertDesc []

/-- The element of maximal publishedAt among `v :: vs` (first-encountered
maximum).  This is what `sort.Sort(sort.Reverse(versions)); versions[0]`
selects: some element whose publishedAt is maximal in the slice. -/
def maxByPublishedAt (v : ModelVersion) (vs : List ModelVersion) : ModelVersion :=
  vs.foldl (fun acc w => if acc.publishedAt < w.publishedAt then w else acc) v

/-- The per-group body of findUpdatesFromDir's second loop: fetch the
model via GetModel applied to the group key — which, despite the Go loop
variable's name `modelID`, holds v.ID values, the version identifiers —
then take the locally owned version with maximal publishedAt as current,
collect strictly newer versions of the model (iterated in descending
publishedAt order) as candidates, and drop the model when there are none.
The empty-group case cannot arise (groups are created nonempty). -/
def processGroup (cat : Catalog) (modelID : Int) (versions : List ModelVersion) :
    Except ApiError (Option Update) :=
  match cat.byId modelID with
  | .error e => .error e
  | .ok model =>
    match versions with
    | [] => .ok none
    | v0 :: rest =>
      let cur := maxByPublishedAt v0 rest
      let candidates := candidatesOf cur (sortDesc model.modelVersions)
      if candidates = [] then .ok none
      else .ok (some { modelName := model.name
                       currentVersion := cur.name
                       candidates := candidates })

/-- The second loop of findUpdatesFromDir over the groups (Go iterates the
map in unspecified order; this embedding uses key-insertion order). -/
def processGroups (cat : Catalog) : Groups → Except ApiError (List Update)
  | [] => .ok []
  | (i, vs) :: rest =>
    match processGroup cat i vs with
    | .error e => .error e
    | .ok none => processGroups cat rest
    | .ok (some u) =>
      match processGroups cat rest with
      | .error e => .error e
      | .ok res => .ok (u :: res)

/-- findUpdatesFromDir (update.go): walk and group, then resolve each
group; returns the updates and the notices printed during the walk. -/
def findUpdatesFromDir (cat : Catalog) (entries : List DirEntry) :
    Except ApiError (List Update × List String) :=
  match scanDir cat entries with
  | .error e => .error e
  | .ok (ms, out) =>
    match processGroups cat ms with
    | .error e => .error e
    | .ok res => .ok (res, out)

/- ============ update.go : Update.run / main.go : run ============ -/

/-- Errors of the interactive layer: survey's terminal.InterruptErr, which
main.go treats as a full-run abort, versus anything else. -/
inductive RunErr
  | interrupt
  | other (s : String)
  deriving DecidableEq, Repr

/-- Observable effects of Update.run: printed lines, prompts shown, and
downloads performed. -/
inductive RunEffect
  | printLine (s : String)
  | askConfirm (msg : String)
  | askMulti (msg : String) (opts : List String)
  | download (versionName : String)
  deriving DecidableEq, Repr

/-- Whether an effect is an interactive prompt. -/
def RunEffect.isPrompt : RunEffect → Bool
  | .askConfirm _ => true
  | .askMulti _ _ => true
  | _ => false

/-- Whether an effect is a network download. -/
def RunEffect.isDownload : RunEffect → Bool
  | .download _ => true
  | _ => false

/-- The survey prompt layer as answer oracles. -/
structure Prompter where
  confirm : String → Except RunErr Bool
  multi : String → List String → Except RunErr (List String)

/-- The download loop over the selected version names in Update.run
(multi-selection branch).  survey guarantees that selections come from the
offered options, so a missing key cannot arise; the embedding skips it. -/
def downloadAll (dl : ModelVersion → Except RunErr Unit)
    (cands : List (String × ModelVersion)) :
    List String → Except RunErr Unit × List RunEffect
  | [] => (.ok (), [])
  | n :: rest =>
    match cands.lookup n with
    | none => downloadAll dl cands rest
    | some ver =>
      match dl ver with
      | .error e => (.error e, [.download ver.name])
      | .ok _ =>
        let (r, effs) := downloadAll dl cands rest
        (r, .download ver.name :: effs)

/-- Update.run (update.go): switch on the number of candidates — zero:
report no updates and succeed; one: confirm, then download on a positive
answer; several: multi-select, then download each selected version.
Downloading is an oracle (cli.Download over the network and filesystem). -/
def runUpdate (u : Update) (p : Prompter) (dl : ModelVersion → Except RunErr Unit) :
    Except RunErr Unit × List RunEffect :=
  match u.candidates with
  | [] => (.ok (), [.printLine (u.modelName ++ " has no updates")])
  | [(_, ver)] =>
    let intro := RunEffect.printLine (u.modelName ++ " has a newer version")
    let msg := "Do you want to update " ++ u.currentVersion ++ " ➜ " ++ ver.name
    match p.confirm msg with
    | .error e => (.error e, [intro, .askConfirm msg])
    | .ok false =>
      (.ok (), [intro, .askConfirm msg, .printLine "Skipped downloading the newer model"])
    | .ok true =>
      match dl ver with
      | .error e => (.error e, [intro, .askConfirm msg, .download ver.name])
      | .ok _ => (.ok (), [intro, .askConfirm msg, .download ver.name])
  | cands =>
    let intro := RunEffect.printLine (u.modelName ++ " has multiple newer versions")
    let opts := cands.map fun p => p.1
    let msg := "Which versions do you want to download (current: " ++ u.currentVersion ++ ")"
    match p.multi msg opts with
    | .error e => (.error e, [intro, .askMulti msg opts])
    | .ok [] =>
      (.ok (), [intro, .askMulti msg opts, .printLine "Skipped downloading any models"])
    | .ok selected =>
      let (r, effs) := downloadAll dl cands selected
      (r, [intro, .askMulti msg opts] ++ effs)

/-- The non-directory target loop of run (main.go): resolve each file
target with findUpdate; a 404 prints the not-found notice and moves on, any
other resolution error prints a failure notice and moves on; a resolved
update is run, with terminal interrupts aborting the whole run and other
run errors reported before moving on. -/
def runFiles (hashOf : String → Except String String) (cat : Catalog)
    (p : Prompter) (dl : ModelVersion → Except RunErr Unit) :
    List String → Except RunErr Unit × List RunEffect
  | [] => (.ok (), [])
  | name :: rest =>
    match findUpdate hashOf cat name with
    | .error .apiNotFound =>
      let (r, effs) := runFiles hashOf cat p dl rest
      (r, .printLine notFoundNotice :: effs)
    | .error _ =>
      let (r, effs) := runFiles hashOf cat p dl rest
      (r, .printLine ("Failed to find updates to " ++ name) :: effs)
    | .ok u =>
      let (r1, effs1) := runUpdate u p dl
      match r1 with
      | .error .interrupt => (.error .interrupt, effs1)
      | .error (.other _) =>
        let (r, effs) := runFiles hashOf cat p dl rest
        (r, effs1 ++ [.printLine ("Failed to update " ++ u.modelName)] ++ effs)
      | .ok _ =>
        let (r, effs) := runFiles hashOf cat p dl rest
        (r, effs1 ++ effs)

/- ============ concrete instances used by witnesses ============ -/

/-- A version file with a lowercase-hex declared digest "ab". -/
def demoFile : FileRecord :=
  { format := "safetensor", primary := false, downloadURL := "u", blake3 := "AB" }

/-- A version holding exactly demoFile. -/
def demoVer : ModelVersion :=
  { id := 1, modelID := 1, name := "v", publishedAt := 0, files := [demoFile] }

/-- A filesystem with the destination directory "d" and no files. -/
def demoFs : Fs := { dirs := ["d"], files := [] }

/-- A filesystem where the destination file already exists. -/
def occupiedFs : Fs := { dirs := ["d"], files := [("d/m.bin", [9])] }

/-- A healthy response delivering [1, 2] as "m.bin". -/
def demoResp : Resp :=
  { status := 200, dispParams := .ok [("filename", "m.bin")], body := [1, 2],
    bodyTruncated := false }

/-- A network always answering with demoResp. -/
def demoNet : String → Except String Resp := fun _ => .ok demoResp

/-- A response whose body read is interrupted after two bytes. -/
def truncResp : Resp :=
  { status := 200, dispParams := .ok [("filename", "m.bin")], body := [1, 2],
    bodyTruncated := true }

/-- A network always answering with truncResp. -/
def truncNet : String → Except String Resp := fun _ => .ok truncResp

/-- A response with a parseable Content-Disposition that carries no
filename parameter (e.g. "attachment"). -/
def noNameResp : Resp :=
  { status := 200, dispParams := .ok [], body := [1], bodyTruncated := false }

/-- A network always answering with noNameResp. -/
def noNameNet : String → Except String Resp := fun _ => .ok noNameResp

/-- A response whose Content-Disposition fails to parse (e.g. the header
is absent, so mime.ParseMediaType gets the empty string). -/
def badDispResp : Resp :=
  { status := 200, dispParams := .error "mime: no media type", body := [],
    bodyTruncated := false }

/-- A network always answering with badDispResp. -/
def badDispNet : String → Except String Resp := fun _ => .ok badDispResp

/-- A digest function that assigns every byte string the digest "ab". -/
def demoHash : Bytes → String := fun _ => "ab"

/-- Version v1 of the spec scenario: version id 101 of model 7,
published at time 10. -/
def specV1 : ModelVersion :=
  { id := 101, modelID := 7, name := "v1", publishedAt := 10, files := [] }

/-- Version v2 of the spec scenario: version id 102 of model 7,
published at time 20. -/
def specV2 : ModelVersion :=
  { id := 102, modelID := 7, name := "v2", publishedAt := 20, files := [] }

/-- Version v3 of the spec scenario: version id 103 of model 7,
published at time 30. -/
def specV3 : ModelVersion :=
  { id := 103, modelID := 7, name := "v3", publishedAt := 30, files := [] }

/-- Model 7 of the spec scenario with versions v1, v2, v3. -/
def specModel : Model := { name := "M", modelVersions := [specV1, specV2, specV3] }

/-- A catalog resolving digest h1 to v1 and h2 to v2 that — since the
code feeds GetModel the version identifiers — also answers the version
ids 101 and 102 with model 7, so the directory scan can succeed. -/
def specCat : Catalog :=
  { byHash := fun h =>
      if h = "h1" then .ok specV1 else if h = "h2" then .ok specV2 else .error .notFound
    byId := fun i =>
      if i = 101 then .ok specModel
      else if i = 102 then .ok specModel
      else .error .notFound }

/-- The same catalog keyed as the API documents it: GetModel succeeds
only on the model identifier 7, never on a version id. -/
def modelKeyedCat : Catalog :=
  { byHash := fun h =>
      if h = "h1" then .ok specV1 else if h = "h2" then .ok specV2 else .error .notFound
    byId := fun i => if i = 7 then .ok specModel else .error .notFound }

/-- A directory with two files of model 7 and one unknown file. -/
def specEntries : List DirEntry :=
  [⟨"a.safetensors", "h1"⟩, ⟨"b.safetensors", "h2"⟩, ⟨"c.safetensors", "zz"⟩]

/-- A directory with just the two files of model 7. -/
def groupEntries : List DirEntry :=
  [⟨"a.safetensors", "h1"⟩, ⟨"b.safetensors", "h2"⟩]

/-- A prompt layer that declines everything. -/
def noopPrompter : Prompter :=
  { confirm := fun _ => .ok false, multi := fun _ _ => .ok [] }

/-- A download oracle that always succeeds. -/
def noopDl : ModelVersion → Except RunErr Unit := fun _ => .ok ()

/-- An update with no candidates. -/
def emptyUpdate : Update := { modelName := "M", currentVersion := "v1", candidates := [] }

/-- A file list with a lowercase and an uppercase safetensor entry. -/
def wFilesA : List FileRecord :=
  [{ format := "SafeTensor", primary := true, downloadURL := "a", blake3 := "" },
   { format := "safetensor", primary := false, downloadURL := "b", blake3 := "" }]

/-- A file list with two primary entries and no safetensor entry. -/
def wFilesB : List FileRecord :=
  [{ format := "x", primary := true, downloadURL := "a", blake3 := "" },
   { format := "y", primary := true, downloadURL := "b", blake3 := "" }]

/-- A file list with a pickle file and a distinct primary file. -/
def wFilesC : List FileRecord :=
  [{ format := "SafeTensor", primary := true, downloadURL := "a", blake3 := "" },
   { format := "Pickle", primary := false, downloadURL := "b", blake3 := "" }]

/-- A file list with neither a pickle file nor a primary file. -/
def wFilesD : List FileRecord :=
  [{ format := "SafeTensor", primary := false, downloadURL := "a", blake3 := "" }]

/-- A version holding wFilesD. -/
def wVerD : ModelVersion :=
  { id := 2, modelID := 2, name := "w", publishedAt := 0, files := wFilesD }

/- ============ selection spec functions ============ -/

/-- Left-biased choice on optional files. -/
def orElseO (a b : Option FileRecord) : Option FileRecord :=
  match a with
  | some x => some x
  | none => b

/-- The last file in the list whose lowered format equals the preferred
format. -/
def lastMatch (preferred : String) : List FileRecord → Option FileRecord
  | [] => none
  | f :: rest =>
    orElseO (lastMatch preferred rest)
      (if strToLower f.format = preferred then some f else none)

/-- The first file in the list marked primary. -/
def firstPrimary : List FileRecord → Option FileRecord
  | [] => none
  | f :: rest => if f.primary then some f else firstPrimary rest

/-- Well-formedness of the grouping map: every group is nonempty and holds
only versions whose ID is the group key. -/
def GroupsWF (ms : Groups) : Prop :=
  ∀ p ∈ ms, p.2 ≠ [] ∧ ∀ v ∈ p.2, v.id = p.1

/-- The update produced for the group keyed by v1's version id: current
is v1, and the already-owned v2 is offered again as a candidate. -/
def reOfferUpdate : Update :=
  { modelName := "M", currentVersion := "v1",
    candidates := [("v3", specV3), ("v2", specV2)] }

/-- The update produced for the group keyed by v2's version id. -/
def laterUpdate : Update :=
  { modelName := "M", currentVersion := "v2", candidates := [("v3", specV3)] }

/-- The update list findUpdatesFromDir returns on specCat/specEntries. -/
def specRes : List Update := [reOfferUpdate, laterUpdate]

/- ===================== lemmas ===================== -/

theorem orElseO_none_right (a : Option FileRecord) : orElseO a none = a := by
  cases a <;> rfl

theorem foldl_selStep (preferred : String) :
    ∀ (files : List FileRecord) (acc : Option FileRecord),
      files.foldl (selStep preferred) acc =
        orElseO (lastMatch preferred files) (orElseO acc (firstPrimary files)) := by
  intro files
  induction files with
  | nil =>
    intro acc
    simp only [List.foldl_nil, lastMatch, firstPrimary, orElseO]
    cases acc <;> rfl
  | cons f rest ih =>
    intro acc
    simp only [List.foldl_cons]
    rw [ih]
    by_cases hm : strToLower f.format = preferred
    · have hsel : selStep preferred acc f = some f := by
        simp [selStep, hm]
      rw [hsel]
      cases hlm : lastMatch preferred rest <;>
        simp [lastMatch, hm, hlm, orElseO]
    · by_cases hp : f.primary = true
      · have hsel : selStep preferred acc f = orElseO acc (some f) := by
          cases acc <;> simp [selStep, hm, hp, orElseO]
        rw [hsel]
        cases acc <;> cases hlm : lastMatch preferred rest <;>
          simp [lastMatch, firstPrimary, hm, hp, hlm, orElseO, orElseO_none_right]
      · have hsel : selStep preferred acc f = acc := by
          cases acc <;> simp [selStep, hm, hp]
        rw [hsel]
        simp [lastMatch, firstPrimary, hm, hp, orElseO_none_right]

theorem selectFile_eq (preferred : String) (files : List FileRecord) :
    selectFile preferred files =
      orElseO (lastMatch preferred files) (firstPrimary files) := by
  have h := foldl_selStep preferred files none
  simpa [selectFile, orElseO] using h

theorem lastMatch_eq_filter (preferred : String) :
    ∀ (files : List FileRecord),
      lastMatch preferred files =
        (files.filter fun f => decide (strToLower f.format = preferred)).getLast? := by
  intro files
  induction files with
  | nil => rfl
  | cons f rest ih =>
    by_cases hm : strToLower f.format = preferred
    · rw [show lastMatch preferred (f :: rest) =
          orElseO (lastMatch preferred rest) (some f) by simp [lastMatch, hm]]
      rw [List.filter_cons_of_pos (by simpa using hm), ih, List.getLast?_cons]
      cases hgl : (rest.filter fun f => decide (strToLower f.format = preferred)).getLast? <;>
        simp [hgl, orElseO, Option.getD]
    · rw [show lastMatch preferred (f :: rest) = lastMatch preferred rest by
          simp [lastMatch, hm, orElseO_none_right]]
      rw [List.filter_cons_of_neg (by simpa using hm), ih]

theorem firstPrimary_eq_filter :
    ∀ (files : List FileRecord),
      firstPrimary files = (files.filter fun f => f.primary).head? := by
  intro files
  induction files with
  | nil => rfl
  | cons f rest ih =>
    by_cases hp : f.primary = true
    · simp [firstPrimary, hp]
    · simp [firstPrimary, hp, ih]

theorem lookup_eq_none_keys {β : Type} :
    ∀ (l : List (String × β)) (k : String),
      l.lookup k = none ↔ ∀ p ∈ l, p.1 ≠ k
  | [], k => by simp
  | (a1, a2) :: t, k => by
    by_cases h : k = a1
    · subst h
      simp [List.lookup]
    · have hb : (k == a1) = false := by simpa using h
      simp only [List.lookup, hb, List.forall_mem_cons]
      rw [lookup_eq_none_keys t k]
      constructor
      · intro ht
        exact ⟨by simpa using fun he => h he.symm, ht⟩
      · intro hh
        exact hh.2

theorem lookup_append_last {β : Type} :
    ∀ (l : List (String × β)) (k : String) (v : β),
      l.lookup k = none → (l ++ [(k, v)]).lookup k = some v
  | [], k, v => by simp [List.lookup]
  | (a1, a2) :: t, k, v => by
    intro h
    by_cases hk : k = a1
    · subst hk
      simp [List.lookup] at h
    · have hb : (k == a1) = false := by simpa using hk
      simp only [List.lookup, hb] at h
      simp only [List.cons_append, List.lookup, hb]
      exact lookup_append_last t k v h

theorem filter_keys_eq_self {β : Type} (l : List (String × β)) (k : String)
    (h : ∀ p ∈ l, p.1 ≠ k) : (l.filter fun q => q.1 != k) = l := by
  apply List.filter_eq_self.mpr
  intro p hp
  simpa using h p hp

theorem remove_set (fs : Fs) (p : String) (b : Bytes)
    (h : fs.files.lookup p = none) : removeFile (setFile fs p b) p = fs := by
  have hk := (lookup_eq_none_keys fs.files p).mp h
  cases fs with
  | mk dirs files =>
    simp only [removeFile, setFile, List.filter_append]
    congr 1
    rw [filter_keys_eq_self files p hk]
    simp

theorem lookup_none_of_statExists_false (fs : Fs) (p : String)
    (h : statExists fs p = false) : fs.files.lookup p = none := by
  unfold statExists at h
  cases hl : fs.files.lookup p with
  | none => rfl
  | some b => rw [hl] at h; simp at h

/- ===================== C10 ===================== -/

/-- C10: Download's file selection is order-dependent in a specific way:
when several files match the preferred format (case-insensitively via
lowering), the last matching one in the list is selected; when none
matches, the first file marked primary is selected and later primary files
never override it. -/
theorem c10_selection_order_dependence (preferred : String) (files : List FileRecord) :
    ((files.filter fun f => decide (strToLower f.format = preferred)) ≠ [] →
      selectFile preferred files =
        (files.filter fun f => decide (strToLower f.format = preferred)).getLast?) ∧
    ((files.filter fun f => decide (strToLower f.format = preferred)) = [] →
      selectFile preferred files = (files.filter fun f => f.primary).head?) := by
  constructor
  · intro hne
    rw [selectFile_eq, lastMatch_eq_filter]
    rw [List.getLast?_eq_getLast _ hne]
    rfl
  · intro hnil
    rw [selectFile_eq, lastMatch_eq_filter, hnil, firstPrimary_eq_filter]
    rfl

/-- Witness for C10 at concrete inputs: in wFilesA both files match
"safetensor" and the second (non-primary) one is selected; in wFilesB
nothing matches and the first of the two primary files is selected. -/
theorem c10_selection_order_dependence_witness :
    ((wFilesA.filter fun f => decide (strToLower f.format = "safetensor")) ≠ [] ∧
      selectFile "safetensor" wFilesA =
        (wFilesA.filter fun f => decide (strToLower f.format = "safetensor")).getLast?) ∧
    ((wFilesB.filter fun f => decide (strToLower f.format = "safetensor")) = [] ∧
      selectFile "safetensor" wFilesB = (wFilesB.filter fun f => f.primary).head?) :=
  ⟨⟨by decide, (c10_selection_order_dependence "safetensor" wFilesA).1 (by decide)⟩,
   ⟨by decide, (c10_selection_order_dependence "safetensor" wFilesB).2 (by decide)⟩⟩

/- ===================== C4 ===================== -/

/-- C4: for a lowercase caller preference (the CLI only admits
"safetensor" and "pickle"), Download selects a preferred-format file when
one exists — even when another file is marked primary; otherwise a primary
file when one exists; and with neither it fails with the file-not-found
error without any network activity (no URL fetched, filesystem
untouched). -/
theorem c4_file_selection_rule (preferred : String) (files : List FileRecord)
    (hlc : strToLower preferred = preferred) :
    ((∃ f ∈ files, strToLower f.format = strToLower preferred) →
      ∃ g, selectFile preferred files = some g ∧ strToLower g.format = strToLower preferred) ∧
    ((∀ f ∈ files, strToLower f.format ≠ strToLower preferred) →
      (∃ f ∈ files, f.primary = true) →
      ∃ g, selectFile preferred files = some g ∧ g.primary = true) ∧
    ((∀ f ∈ files, strToLower f.format ≠ strToLower preferred ∧ f.primary = false) →
      selectFile preferred files = none ∧
      ∀ (hashHex : Bytes → String) (net : String → Except String Resp)
        (ver : ModelVersion) (dir : String) (fs : Fs),
        ver.files = files →
        Download preferred hashHex net ver dir fs = (.error .fileNotFound, fs, [])) := by
  rw [hlc]
  refine ⟨?_, ?_, ?_⟩
  · rintro ⟨f, hf, hfm⟩
    have hne : (files.filter fun f => decide (strToLower f.format = preferred)) ≠ [] :=
      List.ne_nil_of_mem (List.mem_filter.mpr ⟨hf, by simpa using hfm⟩)
    refine ⟨(files.filter fun f => decide (strToLower f.format = preferred)).getLast hne, ?_, ?_⟩
    · rw [selectFile_eq, lastMatch_eq_filter, List.getLast?_eq_getLast _ hne]
      rfl
    · have hmem := List.getLast_mem hne
      simpa using (List.mem_filter.mp hmem).2
  · rintro hnone ⟨f, hf, hp⟩
    have hfl : (files.filter fun f => decide (strToLower f.format = preferred)) = [] := by
      apply List.filter_eq_nil_iff.mpr
      intro a ha
      simpa using hnone a ha
    rw [selectFile_eq, lastMatch_eq_filter, hfl, firstPrimary_eq_filter]
    cases hfp : files.filter (fun f => f.primary) with
    | nil =>
      exfalso
      have hmem : f ∈ files.filter fun f => f.primary := List.mem_filter.mpr ⟨hf, hp⟩
      rw [hfp] at hmem
      exact absurd hmem (List.not_mem_nil f)
    | cons a t =>
      refine ⟨a, by simp [orElseO], ?_⟩
      have hmem : a ∈ files.filter fun f => f.primary := by
        rw [hfp]; exact List.mem_cons_self a t
      exact (List.mem_filter.mp hmem).2
  · intro hboth
    have hfl : (files.filter fun f => decide (strToLower f.format = preferred)) = [] := by
      apply List.filter_eq_nil_iff.mpr
      intro a ha
      simpa using (hboth a ha).1
    have hfp : files.filter (fun f => f.primary) = [] := by
      apply List.filter_eq_nil_iff.mpr
      intro a ha
      simp [(hboth a ha).2]
    have hsel : selectFile preferred files = none := by
      rw [selectFile_eq, lastMatch_eq_filter, hfl, firstPrimary_eq_filter, hfp]
      rfl
    refine ⟨hsel, ?_⟩
    intro hashHex net ver dir fs hv
    rw [← hv] at hsel
    simp [Download, hsel]

/-- Witness for C4 at concrete inputs: with preference "pickle" and
wFilesC (a pickle file plus a distinct primary safetensor file), the
pickle file is selected even though the other is primary; with wFilesD
(no pickle file, no primary) Download fails with the file-not-found error
and fetches nothing. -/
theorem c4_file_selection_rule_witness :
    (∃ g, selectFile "pickle" wFilesC = some g ∧ strToLower g.format = strToLower "pickle") ∧
    (selectFile "pickle" wFilesD = none ∧
      Download "pickle" demoHash demoNet wVerD "d" demoFs =
        (.error .fileNotFound, demoFs, [])) := by
  constructor
  · exact (c4_file_selection_rule "pickle" wFilesC (by decide)).1 (by decide)
  · have h := (c4_file_selection_rule "pickle" wFilesD (by decide)).2.2 (by decide)
    exact ⟨h.1, h.2 demoHash demoNet wVerD "d" demoFs rfl⟩

/- ===================== C3 ===================== -/

/-- C3: for a completed download (body fully delivered, destination fresh),
Download compares the accumulated digest with the lowered declared digest —
i.e. case-insensitively, the accumulated hex digest being lowercase
(hypothesis hlow): on mismatch it removes the just-written file, failing
with the hash-mismatch error and returning the filesystem unchanged (no
artifact under the final filename); on match the file remains on disk with
the downloaded bytes — whose digest equals the declared digest up to case —
and Download succeeds. -/
theorem c3_digest_verification
    (preferred : String) (hashHex : Bytes → String) (net : String → Except String Resp)
    (ver : ModelVersion) (dir : String) (fs : Fs) (f : FileRecord) (res : Resp)
    (params : List (String × String))
    (hf : selectFile preferred ver.files = some f)
    (hnet : net f.downloadURL = .ok res)
    (hst : res.status = 200)
    (hdp : res.dispParams = .ok params)
    (htr : res.bodyTruncated = false)
    (hnew : statExists fs (joinPath dir ((params.lookup "filename").getD "")) = false)
    (hlow : strToLower (hashHex res.body) = hashHex res.body) :
    (strToLower (hashHex res.body) ≠ strToLower f.blake3 →
      Download preferred hashHex net ver dir fs =
        (.error .hashMismatch, fs, [f.downloadURL])) ∧
    (strToLower (hashHex res.body) = strToLower f.blake3 →
      Download preferred hashHex net ver dir fs =
        (.ok (), setFile fs (joinPath dir ((params.lookup "filename").getD "")) res.body,
          [f.downloadURL]) ∧
      (setFile fs (joinPath dir ((params.lookup "filename").getD "")) res.body).files.lookup
          (joinPath dir ((params.lookup "filename").getD "")) = some res.body) := by
  have hnone := lookup_none_of_statExists_false fs
    (joinPath dir ((params.lookup "filename").getD "")) hnew
  have hred : Download preferred hashHex net ver dir fs =
      (if hashHex res.body = strToLower f.blake3
        then (.ok (),
          setFile fs (joinPath dir ((params.lookup "filename").getD "")) res.body,
          [f.downloadURL])
        else (.error .hashMismatch,
          removeFile
            (setFile fs (joinPath dir ((params.lookup "filename").getD "")) res.body)
            (joinPath dir ((params.lookup "filename").getD "")),
          [f.downloadURL])) := by
    simp [Download, hf, hnet, hst, hdp, writeFile, hnew, htr]
  constructor
  · intro hne
    rw [hlow] at hne
    rw [hred, if_neg hne]
    rw [remove_set fs _ res.body hnone]
  · intro heq
    rw [hlow] at heq
    rw [hred, if_pos heq]
    refine ⟨rfl, ?_⟩
    exact lookup_append_last fs.files _ res.body hnone

/-- Witness for C3 at a concrete input: digest function "ab" against
declared digest "AB" — the match branch leaves the file on disk with the
downloaded bytes and Download succeeds. -/
theorem c3_digest_verification_witness :
    Download "safetensor" demoHash demoNet demoVer "d" demoFs =
      (.ok (), setFile demoFs "d/m.bin" [1, 2], ["u"]) ∧
    (setFile demoFs "d/m.bin" [1, 2]).files.lookup "d/m.bin" = some [1, 2] := by
  have h := (c3_digest_verification "safetensor" demoHash demoNet demoVer "d" demoFs
    demoFile demoResp [("filename", "m.bin")] (by decide) rfl rfl rfl rfl
    (by decide) (by decide)).2 (by decide)
  exact h

/- ===================== C5 ===================== -/

/-- C5 (evaluation of the code at the failing input): a download whose
body read is interrupted after delivering two bytes makes Download return
the copy error while the half-written file "d/m.bin" with the partial
bytes [1, 2] remains on disk under the final destination name — the code
removes the destination file only on digest mismatch, not on a mid-stream
failure. -/
theorem c5_partial_file_remains :
    (Download "safetensor" demoHash truncNet demoVer "d" demoFs).1 =
      .error .copyFailed ∧
    (Download "safetensor" demoHash truncNet demoVer "d" demoFs).2.1.files.lookup
      "d/m.bin" = some [1, 2] := by
  constructor <;> rfl

/- ===================== C6 ===================== -/

/-- C6: when the destination path already holds a file, Download fails
with the already-exists error before writing and the pre-existing contents
are left unchanged. -/
theorem c6_no_overwrite
    (preferred : String) (hashHex : Bytes → String) (net : String → Except String Resp)
    (ver : ModelVersion) (dir : String) (fs : Fs) (f : FileRecord) (res : Resp)
    (params : List (String × String)) (old : Bytes)
    (hf : selectFile preferred ver.files = some f)
    (hnet : net f.downloadURL = .ok res)
    (hst : res.status = 200)
    (hdp : res.dispParams = .ok params)
    (hold : fs.files.lookup (joinPath dir ((params.lookup "filename").getD "")) = some old) :
    Download preferred hashHex net ver dir fs =
      (.error (.alreadyExists (joinPath dir ((params.lookup "filename").getD ""))), fs,
        [f.downloadURL]) ∧
    fs.files.lookup (joinPath dir ((params.lookup "filename").getD "")) = some old := by
  have hex : statExists fs (joinPath dir ((params.lookup "filename").getD "")) = true := by
    simp [statExists, hold]
  constructor
  · simp [Download, hf, hnet, hst, hdp, writeFile, hex]
  · exact hold

/-- Witness for C6 at a concrete input: the destination "d/m.bin" already
holds [9]; Download fails with already-exists and the contents stay. -/
theorem c6_no_overwrite_witness :
    Download "safetensor" demoHash demoNet demoVer "d" occupiedFs =
      (.error (.alreadyExists "d/m.bin"), occupiedFs, ["u"]) ∧
    occupiedFs.files.lookup "d/m.bin" = some [9] := by
  have h := c6_no_overwrite "safetensor" demoHash demoNet demoVer "d" occupiedFs
    demoFile demoResp [("filename", "m.bin")] [9] (by decide) rfl rfl rfl (by decide)
  exact h

/- ===================== C7 ===================== -/

/-- C7 (counterexample): a response whose Content-Disposition parses but
carries no filename parameter ("attachment") does not make Download fail
with the no-filename error — the empty filename resolves the destination
to the directory itself and Download fails with already-exists instead. -/
theorem c7_counterexample :
    Download "safetensor" demoHash noNameNet demoVer "d" demoFs =
      (.error (.alreadyExists "d"), demoFs, ["u"]) ∧
    (Download "safetensor" demoHash noNameNet demoVer "d" demoFs).1 ≠
      .error .noFilename := by
  constructor
  · rfl
  · decide

/-- C7 (amended): when the Content-Disposition header fails to parse,
Download fails with the no-filename error and writes nothing; when the
header parses but declares no filename parameter, the empty filename makes
the destination the directory itself, and — the directory existing —
Download fails with the already-exists error, again writing nothing.  In
both cases the destination name comes only from the disposition
parameters, never from the request URL. -/
theorem c7_amended_missing_filename
    (preferred : String) (hashHex : Bytes → String) (net : String → Except String Resp)
    (ver : ModelVersion) (dir : String) (fs : Fs) (f : FileRecord) (res : Resp)
    (hf : selectFile preferred ver.files = some f)
    (hnet : net f.downloadURL = .ok res)
    (hst : res.status = 200) :
    (∀ e, res.dispParams = .error e →
      Download preferred hashHex net ver dir fs =
        (.error .noFilename, fs, [f.downloadURL])) ∧
    (∀ params, res.dispParams = .ok params → params.lookup "filename" = none →
      statExists fs dir = true →
      Download preferred hashHex net ver dir fs =
        (.error (.alreadyExists dir), fs, [f.downloadURL])) := by
  constructor
  · intro e hdp
    simp [Download, hf, hnet, hst, hdp]
  · intro params hdp hnil hdir
    simp [Download, hf, hnet, hst, hdp, hnil, joinPath, writeFile, hdir]

/-- Witness for the amended C7 at concrete inputs: an unparseable header
yields the no-filename error; a parseable header without filename yields
already-exists on the directory itself. -/
theorem c7_amended_missing_filename_witness :
    Download "safetensor" demoHash badDispNet demoVer "d" demoFs =
      (.error .noFilename, demoFs, ["u"]) ∧
    Download "safetensor" demoHash noNameNet demoVer "d" demoFs =
      (.error (.alreadyExists "d"), demoFs, ["u"]) := by
  constructor
  · exact (c7_amended_missing_filename "safetensor" demoHash badDispNet demoVer "d"
      demoFs demoFile badDispResp (by decide) rfl rfl).1 "mime: no media type" rfl
  · exact (c7_amended_missing_filename "safetensor" demoHash noNameNet demoVer "d"
      demoFs demoFile noNameResp (by decide) rfl rfl).2 [] rfl rfl (by decide)

theorem mem_mapInsert (m : List (String × ModelVersion)) (k : String)
    (v : ModelVersion) (n : String) (w : ModelVersion) :
    (n, w) ∈ mapInsert m k v ↔ ((n, w) ∈ m ∧ n ≠ k) ∨ (n = k ∧ w = v) := by
  simp [mapInsert, List.mem_filter, List.mem_append, bne_iff_ne]

theorem cand_mem_sub (cur : ModelVersion) :
    ∀ (vs : List ModelVersion) (acc : List (String × ModelVersion))
      (n : String) (w : ModelVersion),
      (n, w) ∈ vs.foldl (candStep cur) acc →
      (n, w) ∈ acc ∨ (w ∈ vs ∧ cur.publishedAt < w.publishedAt ∧ n = w.name) := by
  intro vs
  induction vs with
  | nil =>
    intro acc n w h
    exact Or.inl (by simpa using h)
  | cons v rest ih =>
    intro acc n w h
    simp only [List.foldl_cons] at h
    rcases ih _ n w h with h1 | h1
    · by_cases hlt : cur.publishedAt < v.publishedAt
      · rw [show candStep cur acc v = mapInsert acc v.name v by simp [candStep, hlt]] at h1
        rcases (mem_mapInsert acc v.name v n w).mp h1 with ⟨hma, _⟩ | ⟨hn1, hw1⟩
        · exact Or.inl hma
        · subst hw1
          exact Or.inr ⟨List.mem_cons_self _ _, hlt, hn1⟩
      · rw [show candStep cur acc v = acc by simp [candStep, hlt]] at h1
        exact Or.inl h1
    · exact Or.inr ⟨List.mem_cons_of_mem _ h1.1, h1.2.1, h1.2.2⟩

theorem cand_mem_iff (cur : ModelVersion) :
    ∀ (vs : List ModelVersion) (acc : List (String × ModelVersion)),
      (vs.map fun v => v.name).Nodup →
      (∀ p ∈ acc, p.1 ∉ vs.map fun v => v.name) →
      ∀ (n : String) (w : ModelVersion),
        ((n, w) ∈ vs.foldl (candStep cur) acc ↔
          (n, w) ∈ acc ∨ (w ∈ vs ∧ cur.publishedAt < w.publishedAt ∧ n = w.name)) := by
  intro vs
  induction vs with
  | nil =>
    intro acc _ _ n w
    simp
  | cons v rest ih =>
    intro acc hnd hacc n w
    simp only [List.map_cons] at hnd hacc
    have hnd' : (rest.map fun v => v.name).Nodup := (List.nodup_cons.mp hnd).2
    have hvnotin : v.name ∉ rest.map fun v => v.name := (List.nodup_cons.mp hnd).1
    simp only [List.foldl_cons]
    by_cases hlt : cur.publishedAt < v.publishedAt
    · rw [show candStep cur acc v = mapInsert acc v.name v by simp [candStep, hlt]]
      have hacc' : ∀ p ∈ mapInsert acc v.name v, p.1 ∉ rest.map fun v => v.name := by
        intro p hp
        cases p with
        | mk p1 p2 =>
          rcases (mem_mapInsert acc v.name v p1 p2).mp hp with ⟨hma, _⟩ | ⟨he, _⟩
          · have hni := hacc _ hma
            exact fun hc => hni (List.mem_cons_of_mem _ hc)
          · rw [he]
            exact hvnotin
      rw [ih (mapInsert acc v.name v) hnd' hacc' n w]
      constructor
      · rintro (hm | hr)
        · rcases (mem_mapInsert acc v.name v n w).mp hm with ⟨hma, _⟩ | ⟨hn1, hw1⟩
          · exact Or.inl hma
          · subst hw1
            exact Or.inr ⟨List.mem_cons_self _ _, hlt, hn1⟩
        · exact Or.inr ⟨List.mem_cons_of_mem _ hr.1, hr.2.1, hr.2.2⟩
      · rintro (hm | ⟨hmem, hlt2, hn⟩)
        · left
          apply (mem_mapInsert acc v.name v n w).mpr
          left
          refine ⟨hm, fun he => ?_⟩
          exact (hacc _ hm) (he ▸ List.mem_cons_self _ _)
        · rcases List.mem_cons.mp hmem with hv | hr
          · subst hv
            left
            exact (mem_mapInsert acc w.name w n w).mpr (Or.inr ⟨hn, rfl⟩)
          · exact Or.inr ⟨hr, hlt2, hn⟩
    · rw [show candStep cur acc v = acc by simp [candStep, hlt]]
      rw [ih acc hnd' (fun p hp hc => (hacc p hp) (List.mem_cons_of_mem _ hc)) n w]
      constructor
      · rintro (hm | hr)
        · exact Or.inl hm
        · exact Or.inr ⟨List.mem_cons_of_mem _ hr.1, hr.2⟩
      · rintro (hm | ⟨hmem, hlt2, hn⟩)
        · exact Or.inl hm
        · rcases List.mem_cons.mp hmem with hv | hr
          · subst hv
            exact absurd hlt2 hlt
          · exact Or.inr ⟨hr, hlt2, hn⟩

theorem insertDesc_perm (v : ModelVersion) :
    ∀ (l : List ModelVersion), (insertDesc v l).Perm (v :: l)
  | [] => List.Perm.refl _
  | w :: ws => by
    unfold insertDesc
    split
    · exact List.Perm.refl _
    · exact ((insertDesc_perm v ws).cons w).trans (List.Perm.swap v w ws)

theorem sortDesc_perm : ∀ (l : List ModelVersion), (sortDesc l).Perm l
  | [] => List.Perm.refl _
  | v :: l => by
    show (insertDesc v (sortDesc l)).Perm (v :: l)
    exact (insertDesc_perm v (sortDesc l)).trans ((sortDesc_perm l).cons v)

theorem maxBy_mem :
    ∀ (vs : List ModelVersion) (v : ModelVersion),
      maxByPublishedAt v vs = v ∨ maxByPublishedAt v vs ∈ vs := by
  intro vs
  induction vs with
  | nil =>
    intro v
    exact Or.inl rfl
  | cons w ws ih =>
    intro v
    rw [show maxByPublishedAt v (w :: ws) =
        maxByPublishedAt (if v.publishedAt < w.publishedAt then w else v) ws from rfl]
    rcases ih (if v.publishedAt < w.publishedAt then w else v) with h | h
    · rw [h]
      by_cases hc : v.publishedAt < w.publishedAt
      · simp [hc]
      · simp [hc]
    · exact Or.inr (List.mem_cons_of_mem _ h)

theorem maxBy_ge_init :
    ∀ (vs : List ModelVersion) (v : ModelVersion),
      v.publishedAt ≤ (maxByPublishedAt v vs).publishedAt := by
  intro vs
  induction vs with
  | nil =>
    intro v
    exact le_refl _
  | cons w ws ih =>
    intro v
    rw [show maxByPublishedAt v (w :: ws) =
        maxByPublishedAt (if v.publishedAt < w.publishedAt then w else v) ws from rfl]
    by_cases hc : v.publishedAt < w.publishedAt
    · rw [if_pos hc]
      exact le_trans (le_of_lt hc) (ih w)
    · rw [if_neg hc]
      exact ih v

theorem maxBy_ge_mem :
    ∀ (vs : List ModelVersion) (v w : ModelVersion), w ∈ vs →
      w.publishedAt ≤ (maxByPublishedAt v vs).publishedAt := by
  intro vs
  induction vs with
  | nil =>
    intro v w h
    exact absurd h (List.not_mem_nil w)
  | cons x ws ih =>
    intro v w hmem
    rw [show maxByPublishedAt v (x :: ws) =
        maxByPublishedAt (if v.publishedAt < x.publishedAt then x else v) ws from rfl]
    rcases List.mem_cons.mp hmem with he | ht
    · subst he
      by_cases hc : v.publishedAt < w.publishedAt
      · rw [if_pos hc]
        exact maxBy_ge_init ws w
      · rw [if_neg hc]
        exact le_trans (not_lt.mp hc) (maxBy_ge_init ws v)
    · exact ih _ w ht

theorem groupAdd_wf (v : ModelVersion) :
    ∀ (ms : Groups), GroupsWF ms → GroupsWF (groupAdd ms v) := by
  intro ms
  induction ms with
  | nil =>
    intro _ p hp
    simp only [groupAdd, List.mem_singleton] at hp
    subst hp
    exact ⟨by simp, by simp⟩
  | cons g rest ih =>
    cases g with
    | mk i vs =>
      intro hwf p hp
      by_cases hc : i = v.id
      · simp only [groupAdd, if_pos hc] at hp
        rcases List.mem_cons.mp hp with he | hr
        · subst he
          refine ⟨by simp, ?_⟩
          intro w hw
          rcases List.mem_append.mp hw with hin | hsing
          · exact (hwf (i, vs) (List.mem_cons_self _ _)).2 w hin
          · rw [List.mem_singleton.mp hsing, hc]
        · exact hwf p (List.mem_cons_of_mem _ hr)
      · simp only [groupAdd, if_neg hc] at hp
        rcases List.mem_cons.mp hp with he | hr
        · subst he
          exact hwf (i, vs) (List.mem_cons_self _ _)
        · exact ih (fun q hq => hwf q (List.mem_cons_of_mem _ hq)) p hr

theorem scanDirAux_wf (cat : Catalog) :
    ∀ (es : List DirEntry) (ms0 : Groups) (out0 : List String)
      (ms : Groups) (out : List String),
      scanDirAux cat ms0 out0 es = .ok (ms, out) → GroupsWF ms0 → GroupsWF ms := by
  intro es
  induction es with
  | nil =>
    intro ms0 out0 ms out h hwf
    simp only [scanDirAux, Except.ok.injEq, Prod.mk.injEq] at h
    rw [← h.1]
    exact hwf
  | cons e rest ih =>
    intro ms0 out0 ms out h hwf
    by_cases hmf : isModelFile e.path = true
    · cases hbh : cat.byHash e.hash with
      | ok v =>
        simp only [scanDirAux, hmf, if_true, hbh] at h
        exact ih _ _ _ _ h (groupAdd_wf v _ hwf)
      | error err =>
        cases err with
        | notFound =>
          simp only [scanDirAux, hmf, if_true, hbh] at h
          exact ih _ _ _ _ h hwf
        | other s =>
          simp only [scanDirAux, hmf, if_true, hbh] at h
          exact absurd h (by simp)
    · simp only [scanDirAux, hmf] at h
      simp only [Bool.false_eq_true, if_false] at h
      exact ih _ _ _ _ h hwf

theorem groupAdd_mem_iff (v w : ModelVersion) :
    ∀ (ms : Groups),
      (∃ g ∈ groupAdd ms v, w ∈ g.2) ↔ (∃ g ∈ ms, w ∈ g.2) ∨ w = v := by
  intro ms
  induction ms with
  | nil =>
    simp [groupAdd]
  | cons g rest ih =>
    cases g with
    | mk i vs =>
      by_cases hc : i = v.id
      · simp only [groupAdd, if_pos hc]
        constructor
        · rintro ⟨g, hg, hwg⟩
          rcases List.mem_cons.mp hg with he | hr
          · subst he
            rcases List.mem_append.mp hwg with hin | hsing
            · exact Or.inl ⟨(i, vs), List.mem_cons_self _ _, hin⟩
            · exact Or.inr (List.mem_singleton.mp hsing)
          · exact Or.inl ⟨g, List.mem_cons_of_mem _ hr, hwg⟩
        · rintro (⟨g, hg, hwg⟩ | he)
          · rcases List.mem_cons.mp hg with hge | hgr
            · subst hge
              exact ⟨(i, vs ++ [v]), List.mem_cons_self _ _, List.mem_append.mpr (Or.inl hwg)⟩
            · exact ⟨g, List.mem_cons_of_mem _ hgr, hwg⟩
          · exact ⟨(i, vs ++ [v]), List.mem_cons_self _ _,
              List.mem_append.mpr (Or.inr (List.mem_singleton.mpr he))⟩
      · simp only [groupAdd, if_neg hc]
        constructor
        · rintro ⟨g, hg, hwg⟩
          rcases List.mem_cons.mp hg with he | hr
          · subst he
            exact Or.inl ⟨(i, vs), List.mem_cons_self _ _, hwg⟩
          · rcases ih.mp ⟨g, hr, hwg⟩ with ⟨g2, hg2, hwg2⟩ | he2
            · exact Or.inl ⟨g2, List.mem_cons_of_mem _ hg2, hwg2⟩
            · exact Or.inr he2
        · rintro (⟨g, hg, hwg⟩ | he)
          · rcases List.mem_cons.mp hg with hge | hgr
            · subst hge
              exact ⟨(i, vs), List.mem_cons_self _ _, hwg⟩
            · rcases ih.mpr (Or.inl ⟨g, hgr, hwg⟩) with ⟨g2, hg2, hwg2⟩
              exact ⟨g2, List.mem_cons_of_mem _ hg2, hwg2⟩
          · rcases ih.mpr (Or.inr he) with ⟨g2, hg2, hwg2⟩
            exact ⟨g2, List.mem_cons_of_mem _ hg2, hwg2⟩

theorem scanDirAux_content (cat : Catalog) :
    ∀ (es : List DirEntry) (ms0 : Groups) (out0 : List String)
      (ms : Groups) (out : List String),
      scanDirAux cat ms0 out0 es = .ok (ms, out) →
      ∀ w, ((∃ g ∈ ms, w ∈ g.2) ↔ (∃ g ∈ ms0, w ∈ g.2) ∨ w ∈ resolvedOf cat es) := by
  intro es
  induction es with
  | nil =>
    intro ms0 out0 ms out h w
    simp only [scanDirAux, Except.ok.injEq, Prod.mk.injEq] at h
    rw [← h.1]
    simp [resolvedOf]
  | cons e rest ih =>
    intro ms0 out0 ms out h w
    by_cases hmf : isModelFile e.path = true
    · cases hbh : cat.byHash e.hash with
      | ok v =>
        simp only [scanDirAux, hmf, if_true, hbh] at h
        rw [ih _ _ _ _ h w, groupAdd_mem_iff v w ms0]
        simp only [resolvedOf, hmf, if_true, hbh, List.mem_cons]
        rw [or_assoc]
      | error err =>
        cases err with
        | notFound =>
          simp only [scanDirAux, hmf, if_true, hbh] at h
          rw [ih _ _ _ _ h w]
          simp only [resolvedOf, hmf, if_true, hbh]
        | other s =>
          simp only [scanDirAux, hmf, if_true, hbh] at h
          exact absurd h (by simp)
    · simp only [scanDirAux, hmf] at h
      simp only [Bool.false_eq_true, if_false] at h
      rw [ih _ _ _ _ h w]
      simp only [resolvedOf, hmf]
      simp

theorem processGroup_some_nonempty (cat : Catalog) (i : Int)
    (vs : List ModelVersion) (u : Update) :
    processGroup cat i vs = .ok (some u) → u.candidates ≠ [] := by
  intro h
  unfold processGroup at h
  cases hm : cat.byId i with
  | error e =>
    rw [hm] at h
    simp at h
  | ok model =>
    rw [hm] at h
    cases vs with
    | nil => simp at h
    | cons v0 rest =>
      by_cases hc : candidatesOf (maxByPublishedAt v0 rest) (sortDesc model.modelVersions) = []
      · simp only [hc, if_true] at h
        simp at h
      · simp only [hc, if_false] at h
        simp only [Except.ok.injEq, Option.some.injEq] at h
        rw [← h]
        simpa using hc

theorem processGroups_mem (cat : Catalog) :
    ∀ (ms : Groups) (res : List Update), processGroups cat ms = .ok res →
      ∀ (i : Int) (vs : List ModelVersion) (u : Update),
        (i, vs) ∈ ms → processGroup cat i vs = .ok (some u) → u ∈ res := by
  intro ms
  induction ms with
  | nil =>
    intro res h i vs u hmem
    exact absurd hmem (List.not_mem_nil _)
  | cons g rest ih =>
    cases g with
    | mk j ws =>
      intro res h i vs u hmem hpg
      cases hg : processGroup cat j ws with
      | error e =>
        simp only [processGroups, hg] at h
        exact absurd h (by simp)
      | ok o =>
        cases o with
        | none =>
          simp only [processGroups, hg] at h
          rcases List.mem_cons.mp hmem with he | hr
          · have hij : i = j ∧ vs = ws := by
              constructor <;> [exact congrArg Prod.fst he; exact congrArg Prod.snd he]
            rw [hij.1, hij.2] at hpg
            rw [hpg] at hg
            exact absurd hg (by simp)
          · exact ih res h i vs u hr hpg
        | some u0 =>
          cases hrest : processGroups cat rest with
          | error e =>
            simp only [processGroups, hg, hrest] at h
            exact absurd h (by simp)
          | ok res0 =>
            simp only [processGroups, hg, hrest, Except.ok.injEq] at h
            rcases List.mem_cons.mp hmem with he | hr
            · have hij : i = j ∧ vs = ws := by
                constructor <;> [exact congrArg Prod.fst he; exact congrArg Prod.snd he]
              rw [hij.1, hij.2] at hpg
              rw [hpg] at hg
              have hu : u = u0 := by
                have := hg
                simp only [Except.ok.injEq, Option.some.injEq] at this
                exact this
              rw [← h, hu]
              exact List.mem_cons_self _ _
            · rw [← h]
              exact List.mem_cons_of_mem _ (ih res0 hrest i vs u hr hpg)

theorem processGroups_sound (cat : Catalog) :
    ∀ (ms : Groups) (res : List Update), processGroups cat ms = .ok res →
      ∀ u ∈ res, ∃ (i : Int) (vs : List ModelVersion),
        (i, vs) ∈ ms ∧ processGroup cat i vs = .ok (some u) := by
  intro ms
  induction ms with
  | nil =>
    intro res h u hu
    simp only [processGroups, Except.ok.injEq] at h
    rw [← h] at hu
    exact absurd hu (List.not_mem_nil _)
  | cons g rest ih =>
    cases g with
    | mk j ws =>
      intro res h u hu
      cases hg : processGroup cat j ws with
      | error e =>
        simp only [processGroups, hg] at h
        exact absurd h (by simp)
      | ok o =>
        cases o with
        | none =>
          simp only [processGroups, hg] at h
          obtain ⟨i, vs, hmem, hpg⟩ := ih res h u hu
          exact ⟨i, vs, List.mem_cons_of_mem _ hmem, hpg⟩
        | some u0 =>
          cases hrest : processGroups cat rest with
          | error e =>
            simp only [processGroups, hg, hrest] at h
            exact absurd h (by simp)
          | ok res0 =>
            simp only [processGroups, hg, hrest, Except.ok.injEq] at h
            rw [← h] at hu
            rcases List.mem_cons.mp hu with he | hr
            · subst he
              exact ⟨j, ws, List.mem_cons_self _ _, hg⟩
            · obtain ⟨i, vs, hmem, hpg⟩ := ih res0 hrest u hr
              exact ⟨i, vs, List.mem_cons_of_mem _ hmem, hpg⟩

/- ===================== C2 ===================== -/

/-- C2 (evaluation of the code at the failing input): the file's digest
resolves to v1, whose version id is 101 and whose modelID is 7; the
catalog — keyed by model identifiers, as GetModel's WithModelID parameter
documents — knows model 7, which holds the strictly newer v2 and v3.  The
claim requires findUpdate to look up the model identified by cur's
modelID and return those candidates; the code instead calls GetModel with
cur.ID = 101, so findUpdate fails with not-found and no candidates are
ever produced. -/
theorem c2_version_id_lookup_bug :
    modelKeyedCat.byHash "h1" = .ok specV1 ∧
    specV1.id = 101 ∧ specV1.modelID = 7 ∧
    modelKeyedCat.byId specV1.modelID = .ok specModel ∧
    specV1.publishedAt < specV2.publishedAt ∧
    specV2 ∈ specModel.modelVersions ∧
    findUpdate (fun _ => .ok "h1") modelKeyedCat "m.safetensors" =
      .error .apiNotFound := by
  refine ⟨rfl, rfl, rfl, rfl, by decide, by decide, ?_⟩
  rfl

/- ===================== C8 ===================== -/

/-- C8: a digest unknown to the catalog is a recoverable per-file and
per-target condition: the directory walk prints the not-found notice and
continues with the remaining files unchanged, and the per-target loop of
run prints the same notice and continues with the remaining targets. -/
theorem c8_notfound_recoverable (cat : Catalog) (e : DirEntry) (rest : List DirEntry)
    (ms : Groups) (out : List String)
    (hashOf : String → Except String String) (p : Prompter)
    (dl : ModelVersion → Except RunErr Unit) (name : String) (restNames : List String)
    (hmf : isModelFile e.path = true)
    (hnf : cat.byHash e.hash = .error .notFound)
    (hfu : findUpdate hashOf cat name = .error .apiNotFound) :
    scanDirAux cat ms out (e :: rest) =
      scanDirAux cat ms (out ++ [notFoundNotice]) rest ∧
    runFiles hashOf cat p dl (name :: restNames) =
      ((runFiles hashOf cat p dl restNames).1,
        .printLine notFoundNotice :: (runFiles hashOf cat p dl restNames).2) := by
  constructor
  · simp [scanDirAux, hmf, hnf]
  · cases hre : runFiles hashOf cat p dl restNames with
    | mk r effs =>
      simp [runFiles, hfu, hre]

/-- Witness for C8 at concrete inputs: digest zz is unknown to specCat, so
the walk turns the entry into a notice, and the run loop skips the file
target with a notice and an otherwise empty continuation. -/
theorem c8_notfound_recoverable_witness :
    scanDirAux specCat [] [] [⟨"c.safetensors", "zz"⟩] =
      scanDirAux specCat [] ([] ++ [notFoundNotice]) [] ∧
    runFiles (fun _ => .ok "zz") specCat noopPrompter noopDl ["c.safetensors"] =
      ((runFiles (fun _ => .ok "zz") specCat noopPrompter noopDl []).1,
        .printLine notFoundNotice ::
          (runFiles (fun _ => .ok "zz") specCat noopPrompter noopDl []).2) :=
  c8_notfound_recoverable specCat ⟨"c.safetensors", "zz"⟩ [] [] []
    (fun _ => .ok "zz") noopPrompter noopDl "c.safetensors" []
    (by decide) (by decide) (by decide)

/- ===================== C9 ===================== -/

/-- C9: models with an empty candidate set are never offered: every update
returned by findUpdatesFromDir has a nonempty candidate map, and running
an update with zero candidates succeeds immediately with a single printed
line — no prompt, no download, hence no filesystem write. -/
theorem c9_empty_candidates_no_offer (cat : Catalog) (entries : List DirEntry)
    (res : List Update) (out : List String)
    (u : Update) (p : Prompter) (dl : ModelVersion → Except RunErr Unit)
    (hres : findUpdatesFromDir cat entries = .ok (res, out))
    (hu : u.candidates = []) :
    (∀ w ∈ res, w.candidates ≠ []) ∧
    runUpdate u p dl = (.ok (), [.printLine (u.modelName ++ " has no updates")]) ∧
    (runUpdate u p dl).2.all (fun e => !e.isPrompt && !e.isDownload) = true := by
  have hrun : runUpdate u p dl =
      (.ok (), [.printLine (u.modelName ++ " has no updates")]) := by
    simp [runUpdate, hu]
  refine ⟨?_, hrun, ?_⟩
  · intro w hw
    unfold findUpdatesFromDir at hres
    split at hres
    · exact absurd hres (by simp)
    · rename_i ms outs heq
      split at hres
      · exact absurd hres (by simp)
      · rename_i res0 heq2
        simp only [Except.ok.injEq, Prod.mk.injEq] at hres
        obtain ⟨i, vs, _, hsome⟩ :=
          processGroups_sound cat ms res0 heq2 w (by rw [hres.1]; exact hw)
        exact processGroup_some_nonempty cat i vs w hsome
  · rw [hrun]
    rfl

/-- Witness for C9 at concrete inputs: findUpdatesFromDir on
specCat/specEntries yields specRes, whose single update has a candidate;
running emptyUpdate prints one line, prompts nothing, downloads nothing. -/
theorem c9_empty_candidates_no_offer_witness :
    (∀ w ∈ specRes, w.candidates ≠ []) ∧
    runUpdate emptyUpdate noopPrompter noopDl =
      (.ok (), [.printLine (emptyUpdate.modelName ++ " has no updates")]) ∧
    (runUpdate emptyUpdate noopPrompter noopDl).2.all
      (fun e => !e.isPrompt && !e.isDownload) = true :=
  c9_empty_candidates_no_offer specCat specEntries specRes [notFoundNotice]
    emptyUpdate noopPrompter noopDl (by decide) rfl

/- ===================== C1 ===================== -/

/-- C1 (evaluation of the code at the failing input): two files resolve
to v1 and v2 — two versions of the same model 7 that differ only in
publishedAt.  The claim requires one group for model 7 with v2 as the
single current version and no owned version offered.  The code instead
groups by the version ids, producing the two singleton groups 101 and
102; against the model-id-keyed catalog the whole scan then aborts
not-found (no updates at all), and against the catalog that also answers
the version ids, the group of the older v1 treats v1 as current and
re-offers the already-owned v2 as a candidate. -/
theorem c1_version_id_grouping_bug :
    scanDir modelKeyedCat groupEntries =
      .ok ([(101, [specV1]), (102, [specV2])], []) ∧
    specV1.modelID = 7 ∧ specV2.modelID = 7 ∧
    findUpdatesFromDir modelKeyedCat groupEntries = .error .notFound ∧
    findUpdatesFromDir specCat groupEntries =
      .ok ([reOfferUpdate, laterUpdate], []) ∧
    ("v2", specV2) ∈ reOfferUpdate.candidates ∧
    specV2 ∈ resolvedOf specCat groupEntries := by
  refine ⟨rfl, rfl, rfl, rfl, ?_, by decide, by decide⟩
  rfl

end SD
